import Mathlib

/-!
Verification of the Live Watch panel model (`live-watch.ts` and its webview
client script). The tree of watched expressions (`LiveVariableNode`) is
embedded as a rose tree `LVNode`; the webview projection
(`WebViewVariableNode`) as `WVNode`; the persisted form (`NodeState`) as
`NodeState`. JS strings are Lean `String`s, the DAP `variablesReference`
is a `Nat`, debug sessions are identified by a `Nat` id, and the global
`idCounter` used to mint node ids is threaded explicitly as a `Nat`.
-/

/-- Embedding of `LiveVariableNode`: the fields of the class
(`id`, `name`, `expr`, `value`, `type`, `variablesReference`, `expanded`,
`prevValue`, `session`, `children`). `children` is `none` when the JS field
is `undefined`. The `type` field is called `vtype` here. -/
inductive LVNode : Type where
  | mk (id name expr value vtype : String) (variablesReference : Nat)
      (expanded : Bool) (prevValue : String) (session : Option Nat)
      (children : Option (List LVNode)) : LVNode

def LVNode.id : LVNode → String
  | .mk i _ _ _ _ _ _ _ _ _ => i

def LVNode.name : LVNode → String
  | .mk _ nm _ _ _ _ _ _ _ _ => nm

def LVNode.expr : LVNode → String
  | .mk _ _ e _ _ _ _ _ _ _ => e

def LVNode.value : LVNode → String
  | .mk _ _ _ v _ _ _ _ _ _ => v

def LVNode.vtype : LVNode → String
  | .mk _ _ _ _ t _ _ _ _ _ => t

def LVNode.variablesReference : LVNode → Nat
  | .mk _ _ _ _ _ r _ _ _ _ => r

def LVNode.expanded : LVNode → Bool
  | .mk _ _ _ _ _ _ e _ _ _ => e

def LVNode.prevValue : LVNode → String
  | .mk _ _ _ _ _ _ _ p _ _ => p

def LVNode.session : LVNode → Option Nat
  | .mk _ _ _ _ _ _ _ _ s _ => s

def LVNode.children : LVNode → Option (List LVNode)
  | .mk _ _ _ _ _ _ _ _ _ c => c

/-- `getChildren()`: `this.children ?? []`. -/
def LVNode.getChildren (n : LVNode) : List LVNode :=
  n.children.getD []

def LVNode.withChildren : LVNode → Option (List LVNode) → LVNode
  | .mk i nm e v t r ex p s _, c => .mk i nm e v t r ex p s c

def LVNode.withNameExpr : LVNode → String → String → LVNode
  | .mk i _ _ v t r ex p s c, nm, e => .mk i nm e v t r ex p s c

def LVNode.withPrevValue : LVNode → String → LVNode
  | .mk i nm e v t r ex _ s c, p => .mk i nm e v t r ex p s c

/-- `hasChildrenNodes()`: `variablesReference > 0 || (children?.length ?? 0) > 0`. -/
def LVNode.hasChildrenNodes (n : LVNode) : Bool :=
  decide (0 < n.variablesReference) || decide (0 < n.getChildren.length)

/-- `isValueChanged()`: `prevValue !== '' && prevValue !== value`. -/
def LVNode.isValueChanged (n : LVNode) : Bool :=
  (n.prevValue != "") && (n.prevValue != n.value)

theorem sizeOf_lt_of_mem_getD {α : Type} [SizeOf α] {x : α}
    {o : Option (List α)} (h : x ∈ o.getD []) : sizeOf x < sizeOf o := by
  cases o with
  | none => simp at h
  | some l =>
    simp at h
    have h1 := List.sizeOf_lt_of_mem h
    simp
    omega

theorem sizeOf_getD_le {α : Type} [SizeOf α] (o : Option (List α)) :
    sizeOf (o.getD []) ≤ sizeOf o := by
  cases o <;> simp

/-- Fresh node ids: `` `node_${LiveVariableNode.idCounter++}` ``. -/
def freshId (ctr : Nat) : String := "node_" ++ toString ctr

/-- A `LiveVariableNode` together with what its `parent` pointers show:
whether `this.parent` exists, and whether `this.parent.getParent()` exists.
The TS class stores a parent pointer; structurally a node's parent is the
node holding it in `children`, so these two flags are exactly the data
`isRootChild()` consults. -/
structure Located where
  node : LVNode
  hasParent : Bool
  parentHasParent : Bool

/-- `isRootChild()`: `this.parent && (this.parent.getParent() === undefined)`. -/
def Located.isRootChild (l : Located) : Bool :=
  l.hasParent && !l.parentHasParent

/-- `rename(nm)`: sets `name` and `expr` to `nm` when `isRootChild()`. -/
def Located.rename (l : Located) (nm : String) : LVNode :=
  if l.isRootChild then l.node.withNameExpr nm nm else l.node

/-- The loop body of `removeChild`: splice out the first child whose `name`
equals the given name; the `Bool` is the return value. -/
def removeFirstByName : List LVNode → String → List LVNode × Bool
  | [], _ => ([], false)
  | c :: rest, nm =>
    if c.name = nm then (rest, true)
    else
      let r := removeFirstByName rest nm
      (c :: r.1, r.2)

/-- `removeChild(node)`: guarded by `node.isRootChild()`, then removes the
first child of `self` whose name matches `node.name`. -/
def LVNode.removeChild (self : LVNode) (node : Located) : LVNode × Bool :=
  if !node.isRootChild then (self, false)
  else
    let r := removeFirstByName self.getChildren node.node.name
    if r.2 then (self.withChildren (some r.1), true) else (self, false)

/-- Interior case of the `moveUpChild` loop: `prev` is the element before
the sublist being scanned; on the first name match the matched child is
swapped with `prev`. `moveUpInner prev l nm` rearranges `prev :: l`. -/
def moveUpInner (prev : LVNode) : List LVNode → String → Option (List LVNode)
  | [], _ => none
  | c :: rest, nm =>
    if c.name = nm then some (c :: prev :: rest)
    else (moveUpInner c rest nm).map (prev :: ·)

/-- `moveUpChild`'s effect on the children array: first name match at
index 0 is shifted off and pushed to the back; an interior match is
swapped with its predecessor; `Bool` is the return value. -/
def moveUpList (cs : List LVNode) (nm : String) : List LVNode × Bool :=
  match cs with
  | [] => (cs, false)
  | c :: rest =>
    if c.name = nm then (rest ++ [c], true)
    else
      match moveUpInner c rest nm with
      | some l => (l, true)
      | none => (cs, false)

/-- `moveUpChild(node)`: guarded by `node.isRootChild()`. -/
def LVNode.moveUpChild (self : LVNode) (node : Located) : LVNode × Bool :=
  if !node.isRootChild then (self, false)
  else
    let r := moveUpList self.getChildren node.node.name
    if r.2 then (self.withChildren (some r.1), true) else (self, false)

/-- Result of scanning for the first name match in `moveDownChild`:
not found, found at the last index (`pop` + `unshift`), or found in the
interior with the swap already performed. -/
inductive MoveDownRes where
  | notFound
  | rotateBack
  | swapped (l : List LVNode)

def moveDownAux : List LVNode → String → MoveDownRes
  | [], _ => .notFound
  | [c], nm => if c.name = nm then .rotateBack else .notFound
  | c :: d :: rest, nm =>
    if c.name = nm then .swapped (d :: c :: rest)
    else
      match moveDownAux (d :: rest) nm with
      | .swapped l => .swapped (c :: l)
      | r => r

/-- `moveDownChild`'s effect on the children array: first name match at the
last index pops the last element and unshifts it to the front; an interior
match is swapped with its successor; `Bool` is the return value. -/
def moveDownList (cs : List LVNode) (nm : String) : List LVNode × Bool :=
  match moveDownAux cs nm with
  | .notFound => (cs, false)
  | .rotateBack =>
    match cs.getLast? with
    | some la => (la :: cs.dropLast, true)
    | none => (cs, false)
  | .swapped l => (l, true)

/-- `moveDownChild(node)`: guarded by `node.isRootChild()`. -/
def LVNode.moveDownChild (self : LVNode) (node : Located) : LVNode × Bool :=
  if !node.isRootChild then (self, false)
  else
    let r := moveDownList self.getChildren node.node.name
    if r.2 then (self.withChildren (some r.1), true) else (self, false)

/-- `addChild(name, expr, value, type, reference)`: appends a fresh node;
`expr || name` falls back to `name` when `expr` is the empty string. -/
def LVNode.addChild (self : LVNode) (nm e v t : String) (reference ctr : Nat) :
    LVNode × Nat :=
  let child := LVNode.mk (freshId ctr) nm (if e = "" then nm else e) v t
    reference false "" none none
  (self.withChildren (some (self.getChildren ++ [child])), ctr + 1)

/-- `addNewExpr(expr)`: refuses on a node with a parent and on a duplicate
`expr` among the children, otherwise `addChild(expr, expr)`. -/
def Located.addNewExpr (l : Located) (e : String) (ctr : Nat) :
    LVNode × Nat × Bool :=
  if l.hasParent then (l.node, ctr, false)
  else if l.node.getChildren.any (fun c => e = c.expr) then (l.node, ctr, false)
  else
    let r := l.node.addChild e e "" "" 0 ctr
    (r.1, r.2, true)

/-- View a node as the tree root (no parent). -/
def rootLoc (n : LVNode) : Located := ⟨n, false, false⟩

/-- A sequence of `addNewExpr` calls on the root. -/
def addAllExprs : List String → LVNode → Nat → LVNode × Nat
  | [], t, ctr => (t, ctr)
  | e :: es, t, ctr =>
    let r := (rootLoc t).addNewExpr e ctr
    addAllExprs es r.1 r.2.1

/-- The `expr` strings of the root's children. -/
def exprsOf (n : LVNode) : List String :=
  n.getChildren.map LVNode.expr

/-- Embedding of the persisted `NodeState` interface. -/
inductive NodeState : Type where
  | mk (name expr : String) (expanded : Bool) (children : List NodeState) : NodeState

def NodeState.name : NodeState → String
  | .mk nm _ _ _ => nm

def NodeState.expr : NodeState → String
  | .mk _ e _ _ => e

def NodeState.expanded : NodeState → Bool
  | .mk _ _ ex _ => ex

def NodeState.children : NodeState → List NodeState
  | .mk _ _ _ c => c

/-- `pvtSerialize(state)`: builds the item for this node with
`expanded: this.expanded || !this.parent` and recursively pushes the
children's items into it; `isRoot` stands for `!this.parent`. -/
def pvtSerialize (isRoot : Bool) : LVNode → NodeState
  | .mk _ nm e _ _ _ ex _ _ c =>
    NodeState.mk nm e (ex || isRoot)
      ((c.getD []).attach.map (fun x => pvtSerialize false x.1))
termination_by n => sizeOf n
decreasing_by
  have h1 := sizeOf_lt_of_mem_getD x.2
  simp
  omega

/-- `serialize()`: `pvtSerialize(undefined)` on a node with no parent. -/
def LVNode.serialize (n : LVNode) : NodeState := pvtSerialize true n

/-- The loop body of `deSerialize`: for each saved child state a new node
`new LiveVariableNode(this, child.name, child.expr)` is created with
`expanded` taken from the state, pushed, and recursively deserialized.
Returns the created nodes, threading the id counter depth-first. -/
def deSerializeKids : List NodeState → Nat → List LVNode × Nat
  | [], ctr => ([], ctr)
  | .mk nm e ex kids :: rest, ctr =>
    let r₁ := deSerializeKids kids (ctr + 1)
    let node := LVNode.mk (freshId ctr) nm e "" "" 0 ex "" none
      (match kids with | [] => none | _ => some r₁.1)
    let r₂ := deSerializeKids rest r₁.2
    (node :: r₂.1, r₂.2)
termination_by l _ => sizeOf l
decreasing_by
  all_goals simp
  all_goals omega

/-- `deSerialize(state)`: appends the nodes built from `state.children`
to `this.children` (left `undefined` when the state has no children). -/
def LVNode.deSerialize (self : LVNode) (st : NodeState) (ctr : Nat) :
    LVNode × Nat :=
  match st with
  | .mk _ _ _ [] => (self, ctr)
  | .mk _ _ _ kids =>
    let r := deSerializeKids kids ctr
    (self.withChildren (some (self.getChildren ++ r.1)), r.2)

/-- The fresh root the provider builds in its constructor:
`new LiveVariableNode(undefined, '', '')`. -/
def freshRoot (ctr : Nat) : LVNode :=
  LVNode.mk (freshId ctr) "" "" "" "" 0 false "" none none

/-- Observation of a node used to state the round-trip property: every
field of the tree except the node id, the session and `prevValue`
(`none` and `some []` children both observe as no children). -/
inductive ObsTree : Type where
  | mk (name expr : String) (expanded : Bool) (value vtype : String)
      (variablesReference : Nat) (children : List ObsTree) : ObsTree

def observe : LVNode → ObsTree
  | .mk _ nm e v t r ex _ _ c =>
    ObsTree.mk nm e ex v t r ((c.getD []).attach.map (fun x => observe x.1))
termination_by n => sizeOf n
decreasing_by
  have h1 := sizeOf_lt_of_mem_getD x.2
  simp
  omega

/-- The observation the round-trip claim predicts for the reconstructed
tree: names and exprs kept everywhere, `expanded` kept on non-root nodes
(`false` at the root, which is rebuilt fresh), values, types and
references reset. -/
def persistedObs (isRoot : Bool) : LVNode → ObsTree
  | .mk _ nm e _ _ _ ex _ _ c =>
    ObsTree.mk nm e (ex && !isRoot) "" "" 0
      ((c.getD []).attach.map (fun x => persistedObs false x.1))
termination_by n => sizeOf n
decreasing_by
  have h1 := sizeOf_lt_of_mem_getD x.2
  simp
  omega

/-- Observation of a saved `NodeState` as a tree. -/
def obsOfState : NodeState → ObsTree
  | .mk nm e ex kids =>
    ObsTree.mk nm e ex "" "" 0 (kids.attach.map (fun x => obsOfState x.1))
termination_by st => sizeOf st
decreasing_by
  have h1 := List.sizeOf_lt_of_mem x.2
  simp
  try omega

/-- The fields of a DAP `Variable` that `refreshChildren` reads. -/
structure DAPVariable where
  name : String
  evaluateName : Option String
  value : Option String
  vtype : Option String
  variablesReference : Option Nat

/-- JS `o || d` for an optional string: `d` when the string is missing
or empty. -/
def orStr (o : Option String) (d : String) : String :=
  match o with
  | none => d
  | some s => if s = "" then d else s

/-- Embedding of the `SaveVarState` interface. -/
structure SaveVarState where
  id : String
  expanded : Bool
  value : String
  children : Option (List LVNode)

/-- `oldStateMap[nm]` as built by the loop over the prior children: a JS
object write, so the last prior child with a given name wins. -/
def oldStateLookup (cs : List LVNode) (nm : String) : Option SaveVarState :=
  (cs.reverse.find? (fun c => c.name == nm)).map
    (fun c => ⟨c.id, c.expanded, c.value, c.children⟩)

def LVNode.withId : LVNode → String → LVNode
  | .mk _ nm e v t r ex p s c, i => .mk i nm e v t r ex p s c

def LVNode.withExpanded : LVNode → Bool → LVNode
  | .mk i nm e v t r _ p s c, ex => .mk i nm e v t r ex p s c

def LVNode.withSession : LVNode → Option Nat → LVNode
  | .mk i nm e v t r ex p _ c, s => .mk i nm e v t r ex p s c

/-- The child-construction loop of `refreshChildren`: each returned
`variable` becomes a fresh node (`evaluateName || name`, `value || ''`,
`type || ''`, `variablesReference ?? 0`), which then inherits the saved
id, expansion (kept only if the new reference is positive), value-as-
`prevValue` and cached children when a prior child had the same name;
every node finally records the session. `ctr` models `idCounter`. -/
def buildVar (session : Nat) (prior : List LVNode) (v : DAPVariable)
    (ctr : Nat) : LVNode :=
  let ch := LVNode.mk (freshId ctr) v.name (orStr v.evaluateName v.name)
    (orStr v.value "") (orStr v.vtype "") (v.variablesReference.getD 0)
    false "" none none
  let ch₂ :=
    match oldStateLookup prior ch.name with
    | some st =>
      (((ch.withId st.id).withExpanded
          (st.expanded && decide (0 < ch.variablesReference))).withPrevValue
        st.value).withChildren st.children
    | none => ch
  ch₂.withSession (some session)

def rebuildChildren (session : Nat) (prior : List LVNode) :
    List DAPVariable → Nat → List LVNode × Nat
  | [], ctr => ([], ctr)
  | v :: vs, ctr =>
    let r := rebuildChildren session prior vs (ctr + 1)
    (buildVar session prior v ctr :: r.1, r.2)

/-- Outcome of the `liveVariables` custom request. -/
inductive ReqOutcome where
  | rejected
  | resolvedWith (vars : List DAPVariable)

mutual

/-- `refreshChildren(session, resolve)`: the adapter's response to
`liveVariables` for reference `r` is `env r`; the recursion into the
re-expanded saved children is bounded by `fuel` (in JS it is bounded by
the depth of the inherited child trees). The guard `!session` of the
source cannot fire here since sessions are plain ids. Returns the updated
node, the id counter, and whether a `liveVariables` request was issued
for this node. -/
def refreshChildren (env : Nat → ReqOutcome) (session : Nat) :
    Nat → LVNode → Nat → LVNode × Nat × Bool
  | 0, n, ctr => (n, ctr, false)
  | fuel + 1, n, ctr =>
    if n.session ≠ some session then (n, ctr, false)
    else if n.expanded && decide (0 < n.variablesReference) then
      match env n.variablesReference with
      | .rejected => (n, ctr, true)
      | .resolvedWith vars =>
        if vars.isEmpty then (n.withChildren none, ctr, true)
        else
          let r₁ := rebuildChildren session n.getChildren vars ctr
          let r₂ := refreshKids env session fuel r₁.1 r₁.2
          (n.withChildren (some r₂.1), r₂.2, true)
    else (n, ctr, false)
termination_by fuel _ _ => (fuel, 0)

/-- The pass over the freshly rebuilt children: each expanded child is
refreshed recursively. -/
def refreshKids (env : Nat → ReqOutcome) (session : Nat) :
    Nat → List LVNode → Nat → List LVNode × Nat
  | _, [], ctr => ([], ctr)
  | fuel, c :: cs, ctr =>
    let r₁ :=
      if c.expanded then
        let r := refreshChildren env session fuel c ctr
        (r.1, r.2.1)
      else (c, ctr)
    let r₂ := refreshKids env session fuel cs r₁.2
    (r₁.1 :: r₂.1, r₂.2)
termination_by fuel cs _ => (fuel, cs.length + 1)

end

/-- Embedding of `WebViewVariableNode` (the `VariableNode` interface of
the webview script); `children` is `none` when `undefined`. -/
inductive WVNode : Type where
  | mk (id name expr value vtype : String)
      (hasChildren expanded changed isRoot : Bool)
      (depth : Nat) (children : Option (List WVNode)) : WVNode

def WVNode.id : WVNode → String
  | .mk i _ _ _ _ _ _ _ _ _ _ => i

def WVNode.name : WVNode → String
  | .mk _ nm _ _ _ _ _ _ _ _ _ => nm

def WVNode.expr : WVNode → String
  | .mk _ _ e _ _ _ _ _ _ _ _ => e

def WVNode.value : WVNode → String
  | .mk _ _ _ v _ _ _ _ _ _ _ => v

def WVNode.vtype : WVNode → String
  | .mk _ _ _ _ t _ _ _ _ _ _ => t

def WVNode.hasChildren : WVNode → Bool
  | .mk _ _ _ _ _ hc _ _ _ _ _ => hc

def WVNode.expanded : WVNode → Bool
  | .mk _ _ _ _ _ _ ex _ _ _ _ => ex

def WVNode.changed : WVNode → Bool
  | .mk _ _ _ _ _ _ _ ch _ _ _ => ch

def WVNode.isRoot : WVNode → Bool
  | .mk _ _ _ _ _ _ _ _ ir _ _ => ir

def WVNode.depth : WVNode → Nat
  | .mk _ _ _ _ _ _ _ _ _ d _ => d

def WVNode.children : WVNode → Option (List WVNode)
  | .mk _ _ _ _ _ _ _ _ _ _ c => c

def WVNode.getChildren (n : WVNode) : List WVNode :=
  n.children.getD []

/-- `toWebViewNode(depth, cwd)`: builds the webview projection and then
records `prevValue = value` on the visited node (and, when expanded, on
its children through the recursive `map`). `gpr` stands for the external
`getPathRelative`; `isRoot` for `this.isRootChild()`, which is `false` on
every recursive call. Returns the projection and the updated node. -/
def toWebViewNode (gpr : String → String → String) (cwd : Option String)
    (isRoot : Bool) (depth : Nat) : LVNode → WVNode × LVNode
  | .mk i nm e v t r ex p s c =>
    let parts := if nm.startsWith "'" && isRoot then nm.splitOn "'::" else [nm]
    let partsAfterPop := parts.dropLast
    let file₀ := match partsAfterPop with
      | [] => ""
      | q :: _ => q.drop 1
    let cwdStr := cwd.getD ""
    let file := if file₀ ≠ "" ∧ cwdStr ≠ "" then gpr cwdStr file₀ else file₀
    let changed := (p != "") && (p != v)
    let kidPairs : Option (List (WVNode × LVNode)) :=
      if ex then
        match c with
        | none => none
        | some l =>
          some (l.attach.map (fun x => toWebViewNode gpr cwd false (depth + 1) x.1))
      else none
    let wv := WVNode.mk i nm e v
      ((if file ≠ "" then "File: " ++ file ++ "\n" else "") ++ t)
      (decide (0 < r) || decide (0 < (c.getD []).length)) ex changed isRoot depth
      (kidPairs.map (fun ps => ps.map Prod.fst))
    let newChildren := match kidPairs with
      | none => c
      | some ps => some (ps.map Prod.snd)
    (wv, LVNode.mk i nm e v t r ex v s newChildren)
termination_by n => sizeOf n
decreasing_by
  have h1 := List.sizeOf_lt_of_mem x.2
  simp
  try omega

theorem WVNode.children_sizeOf_lt (n : WVNode) : sizeOf n.children < sizeOf n := by
  cases n with
  | mk i nm e v t hc ex ch ir d c =>
    simp [WVNode.children]
    try omega

/-- The per-node field comparison of `isStructureChanged`. -/
def nodeFieldsDiffer (o n : WVNode) : Bool :=
  (o.id != n.id) || (o.name != n.name) || (o.expr != n.expr)
    || (o.hasChildren != n.hasChildren) || (o.expanded != n.expanded)
    || (o.depth != n.depth)

/-- The inner `compareNodes` of `isStructureChanged`: `true` means a
structural change was found. -/
def compareNodes (o n : List WVNode) : Bool :=
  if o.length ≠ n.length then true
  else
    match o, n with
    | [], _ => false
    | _ :: _, [] => false
    | a :: as, b :: bs =>
      nodeFieldsDiffer a b || compareNodes a.getChildren b.getChildren
        || compareNodes as bs
termination_by sizeOf o
decreasing_by
  all_goals
    first
    | (have h1 := sizeOf_getD_le a.children
       have h2 := WVNode.children_sizeOf_lt a
       simp [WVNode.getChildren]
       omega)
    | (simp; try omega)

/-- `isStructureChanged(oldVars, newVars)`. -/
def isStructureChanged (o n : List WVNode) : Bool :=
  if o.length ≠ n.length then true else compareNodes o n

/-- The fields `isStructureChanged` tracks, as a tree: `id`, `name`,
`expr`, `hasChildren`, `expanded`, `depth`, and the children recursively
(`undefined` and empty children coincide, as in `children || []`). -/
inductive TrackedTree : Type where
  | mk (id name expr : String) (hasChildren expanded : Bool) (depth : Nat)
      (children : List TrackedTree) : TrackedTree

def tracked : WVNode → TrackedTree
  | .mk i nm e _ _ hc ex _ _ d c =>
    TrackedTree.mk i nm e hc ex d ((c.getD []).attach.map (fun x => tracked x.1))
termination_by n => sizeOf n
decreasing_by
  have h1 := sizeOf_lt_of_mem_getD x.2
  simp
  omega

/-- What the webview does with an `update` message. -/
inductive UpdateEffect where
  | fullRender
  | patchValues
  | saveOnly
deriving DecidableEq

/-- The `update` branch of the webview's `handleMessage`: while editing
only the data is saved; otherwise a structural change causes a full
re-render and anything else only a value patch. -/
def updateEffect (editing : Bool) (oldVars newVars : List WVNode) : UpdateEffect :=
  if editing then .saveOnly
  else if isStructureChanged oldVars newVars then .fullRender
  else .patchValues

/-- `debugSessionStarted`: `Math.max(1, Math.min(20, samplesPerSecond ?? 4))`;
JS numbers are modelled as rationals. -/
def clampSamplesPerSecond (cfg : Option ℚ) : ℚ :=
  max 1 (min 20 (cfg.getD 4))

/-- `this.timeoutMs = 1000 / samplesPerSecond`. -/
def timeoutMsOf (cfg : Option ℚ) : ℚ :=
  1000 / clampSamplesPerSecond cfg

/-- The clamp in `setRefreshRate` with `minRefreshRate = 200` and
`maxRefreshRate = 5000`. -/
def clampRefreshRate (rate : ℚ) : ℚ :=
  min (max rate 200) 5000

/-- `setRefreshRate()`: the configured `liveWatchRefreshRate` (default
`300`) clamped. -/
def setRefreshRateValue (cfg : Option ℚ) : ℚ :=
  clampRefreshRate (cfg.getD 300)

/-- The format characters of the regex `,[hxbod]$`. -/
def isFmtChar (c : Char) : Bool :=
  (c == 'h') || (c == 'x') || (c == 'b') || (c == 'o') || (c == 'd')

/-- `expr.replace(/,[hxbod]$/, '')` on the character data. -/
def stripFmtData (l : List Char) : List Char :=
  match l.reverse with
  | c :: ',' :: rest => if isFmtChar c then rest.reverse else l
  | _ => l

def stripFmt (e : String) : String := String.mk (stripFmtData e.data)

/-- The expression rewrite of `handleUpdateFormat`: strip a trailing
format specifier, then append `',' + format` when `format` is non-empty. -/
def applyFmt (e f : String) : String :=
  let e₂ := stripFmt e
  if f = "" then e₂ else e₂ ++ "," ++ f

section Helpers

theorem LVNode.getChildren_withChildren (n : LVNode) (l : List LVNode) :
    (n.withChildren (some l)).getChildren = l := by
  cases n
  rfl

theorem LVNode.name_withChildren (n : LVNode) (c : Option (List LVNode)) :
    (n.withChildren c).name = n.name := by
  cases n
  rfl

theorem attachMap {α β : Type} (l : List α) (f : α → β) :
    (l.attach.map (fun x => f x.1)) = l.map f := by
  simp

end Helpers

/-- C7: with `samplesPerSecond` clamped to `[1, 20]` (default `4`), the
polling period `timeoutMs = 1000 / samplesPerSecond` always lies in
`[50, 1000]` milliseconds, and `setRefreshRate` clamps the configured
`liveWatchRefreshRate` (default `300`) to `[200, 5000]`. -/
theorem pollingPeriodBounded :
    ∀ (cfg rcfg : Option ℚ) (rate : ℚ),
      (1 ≤ clampSamplesPerSecond cfg ∧ clampSamplesPerSecond cfg ≤ 20)
      ∧ (50 ≤ timeoutMsOf cfg ∧ timeoutMsOf cfg ≤ 1000)
      ∧ (200 ≤ clampRefreshRate rate ∧ clampRefreshRate rate ≤ 5000)
      ∧ (200 ≤ setRefreshRateValue rcfg ∧ setRefreshRateValue rcfg ≤ 5000) := by
  intro cfg rcfg rate
  have h1 : 1 ≤ clampSamplesPerSecond cfg := le_max_left 1 _
  have h2 : clampSamplesPerSecond cfg ≤ 20 := by
    apply max_le
    · norm_num
    · exact min_le_left 20 _
  have h0 : (0 : ℚ) < clampSamplesPerSecond cfg := by linarith
  have hlo : 50 ≤ timeoutMsOf cfg := by
    unfold timeoutMsOf
    rw [le_div_iff₀ h0]
    linarith
  have hhi : timeoutMsOf cfg ≤ 1000 := by
    unfold timeoutMsOf
    calc 1000 / clampSamplesPerSecond cfg ≤ 1000 / 1 :=
          div_le_div_of_nonneg_left (by norm_num) (by norm_num) h1
      _ = 1000 := by norm_num
  have hr1 : 200 ≤ clampRefreshRate rate := by
    apply le_min
    · exact le_max_right rate 200
    · norm_num
  have hr2 : clampRefreshRate rate ≤ 5000 := min_le_right _ 5000
  have hs1 : 200 ≤ setRefreshRateValue rcfg := by
    unfold setRefreshRateValue
    apply le_min
    · exact le_max_right _ 200
    · norm_num
  have hs2 : setRefreshRateValue rcfg ≤ 5000 := min_le_right _ 5000
  exact ⟨⟨h1, h2⟩, ⟨hlo, hhi⟩, ⟨hr1, hr2⟩, ⟨hs1, hs2⟩⟩

theorem stripFmtData_append (l : List Char) (c : Char) (hc : isFmtChar c = true) :
    stripFmtData (l ++ [',', c]) = l := by
  unfold stripFmtData
  rw [show (l ++ [',', c]).reverse = c :: ',' :: l.reverse by simp]
  simp [hc]

theorem stripFmt_append (s fstr : String) (c : Char) (hd : fstr.data = [c])
    (hc : isFmtChar c = true) : stripFmt (s ++ "," ++ fstr) = s := by
  have h1 : (s ++ "," ++ fstr).data = s.data ++ [',', c] := by
    have h0 : (s ++ "," ++ fstr).data = s.data ++ [','] ++ fstr.data := rfl
    rw [h0, hd]
    simp
  unfold stripFmt
  rw [h1, stripFmtData_append _ _ hc]

/-- C8: for a format `f` in `{h, x, b, o, d}`, the expression rewrite of
`handleUpdateFormat` appends `,f` to the format-stripped expression, is
idempotent, and applying `f` after any other format `g` erases `g` and
yields the same result as applying `f` directly. -/
theorem updateFormatIdempotentReplaces :
    ∀ (e f g : String), f ∈ ["h", "x", "b", "o", "d"] →
      g ∈ ["h", "x", "b", "o", "d"] →
      applyFmt e f = stripFmt e ++ "," ++ f
      ∧ applyFmt (applyFmt e f) f = applyFmt e f
      ∧ applyFmt (applyFmt e g) f = applyFmt e f := by
  intro e f g hf hg
  simp only [List.mem_cons, List.not_mem_nil, or_false] at hf hg
  have hchar : ∀ (x : String), (x = "h" ∨ x = "x" ∨ x = "b" ∨ x = "o" ∨ x = "d") →
      ∃ c, x.data = [c] ∧ isFmtChar c = true ∧ x ≠ "" := by
    intro x hx
    rcases hx with rfl | rfl | rfl | rfl | rfl
    · exact ⟨'h', rfl, rfl, by decide⟩
    · exact ⟨'x', rfl, rfl, by decide⟩
    · exact ⟨'b', rfl, rfl, by decide⟩
    · exact ⟨'o', rfl, rfl, by decide⟩
    · exact ⟨'d', rfl, rfl, by decide⟩
  obtain ⟨cf, hcf, hfc, hfne⟩ := hchar f hf
  obtain ⟨cg, hcg, hgc, hgne⟩ := hchar g hg
  have happ : ∀ (b x : String), x ≠ "" → applyFmt b x = stripFmt b ++ "," ++ x := by
    intro b x hx
    unfold applyFmt
    simp [hx]
  have h1 : applyFmt e f = stripFmt e ++ "," ++ f := happ e f hfne
  have h2 : applyFmt (applyFmt e f) f = applyFmt e f := by
    rw [h1, happ _ _ hfne, stripFmt_append _ _ _ hcf hfc]
  have h3 : applyFmt (applyFmt e g) f = applyFmt e f := by
    rw [happ e g hgne, happ _ _ hfne, stripFmt_append _ _ _ hcg hgc, h1]
  exact ⟨h1, h2, h3⟩

/-- Witness for C8 at `e = "counter,x"`, `f = "h"`, `g = "d"`. -/
theorem updateFormatIdempotentReplaces_witness :
    applyFmt "counter,x" "h" = "counter,h"
    ∧ applyFmt (applyFmt "counter,x" "h") "h" = applyFmt "counter,x" "h"
    ∧ applyFmt (applyFmt "counter,x" "d") "h" = applyFmt "counter,x" "h" := by
  have h := updateFormatIdempotentReplaces "counter,x" "h" "d"
    (by decide) (by decide)
  refine ⟨?_, h.2.1, h.2.2⟩
  rw [h.1]
  rfl

/-- C1: for any node that is not a root child (the root itself included),
`rename` leaves `name` and `expr` untouched, and `removeChild`,
`moveUpChild` and `moveDownChild` called with it return `false` and leave
the receiver (the parent) unchanged; on a root child `rename` sets both
`name` and `expr` to the new string. -/
theorem rootChildOnlyMutation :
    ∀ (l : Located) (nm : String) (self : LVNode),
      (l.isRootChild = false →
        l.rename nm = l.node
        ∧ self.removeChild l = (self, false)
        ∧ self.moveUpChild l = (self, false)
        ∧ self.moveDownChild l = (self, false))
      ∧ (l.isRootChild = true →
        (l.rename nm).name = nm ∧ (l.rename nm).expr = nm) := by
  intro l nm self
  constructor
  · intro h
    refine ⟨?_, ?_, ?_, ?_⟩
    · simp [Located.rename, h]
    · simp [LVNode.removeChild, h]
    · simp [LVNode.moveUpChild, h]
    · simp [LVNode.moveDownChild, h]
  · intro h
    cases hn : l.node with
    | mk i nm₀ e v t r ex p s c =>
      simp [Located.rename, h, hn, LVNode.withNameExpr, LVNode.name, LVNode.expr]

/-- Witness for C1: a non-root-child node (the root) and a root child. -/
theorem rootChildOnlyMutation_witness :
    (Located.mk (freshRoot 0) false false).isRootChild = false
    ∧ (Located.mk (freshRoot 0) false false).rename "q" = freshRoot 0
    ∧ ((freshRoot 1).removeChild (Located.mk (freshRoot 0) false false)
        = (freshRoot 1, false))
    ∧ (Located.mk (freshRoot 2) true false).isRootChild = true
    ∧ ((Located.mk (freshRoot 2) true false).rename "q").name = "q" := by
  refine ⟨rfl, ?_, ?_, rfl, ?_⟩
  · exact ((rootChildOnlyMutation (Located.mk (freshRoot 0) false false) "q"
      (freshRoot 1)).1 rfl).1
  · exact ((rootChildOnlyMutation (Located.mk (freshRoot 0) false false) "q"
      (freshRoot 1)).1 rfl).2.1
  · exact ((rootChildOnlyMutation (Located.mk (freshRoot 2) true false) "q"
      (freshRoot 1)).2 rfl).1

theorem addNewExpr_parent (l : Located) (e : String) (ctr : Nat)
    (h : l.hasParent = true) : l.addNewExpr e ctr = (l.node, ctr, false) := by
  simp [Located.addNewExpr, h]

theorem addNewExpr_dup (l : Located) (e : String) (ctr : Nat)
    (h : ∃ c ∈ l.node.getChildren, c.expr = e) :
    l.addNewExpr e ctr = (l.node, ctr, false) := by
  obtain ⟨c, hc, hce⟩ := h
  have hany : l.node.getChildren.any (fun c => e = c.expr) = true := by
    simp only [List.any_eq_true, decide_eq_true_eq]
    exact ⟨c, hc, hce.symm⟩
  unfold Located.addNewExpr
  cases hp : l.hasParent with
  | true => simp
  | false => simp [hany]

theorem addNewExpr_fresh (l : Located) (e : String) (ctr : Nat)
    (hp : l.hasParent = false) (h : ∀ c ∈ l.node.getChildren, c.expr ≠ e) :
    (l.addNewExpr e ctr).2.2 = true
    ∧ (l.addNewExpr e ctr).1.getChildren
      = l.node.getChildren
        ++ [LVNode.mk (freshId ctr) e e "" "" 0 false "" none none] := by
  have hany : l.node.getChildren.any (fun c => e = c.expr) = false := by
    simp only [List.any_eq_false, decide_eq_true_eq]
    intro c hc he
    exact h c hc he.symm
  unfold Located.addNewExpr LVNode.addChild
  simp only [hp, hany, Bool.false_eq_true, if_false, reduceIte]
  constructor
  · trivial
  · rw [LVNode.getChildren_withChildren]
    congr 2
    by_cases he : e = "" <;> simp [he]

theorem exprsOf_addNewExpr_nodup (t : LVNode) (e : String) (ctr : Nat)
    (h : (exprsOf t).Nodup) :
    (exprsOf ((rootLoc t).addNewExpr e ctr).1).Nodup := by
  by_cases hdup : ∃ c ∈ t.getChildren, c.expr = e
  · rw [addNewExpr_dup (rootLoc t) e ctr hdup]
    exact h
  · push_neg at hdup
    have hfresh := addNewExpr_fresh (rootLoc t) e ctr rfl hdup
    unfold exprsOf
    rw [hfresh.2]
    simp only [List.map_append, List.map_cons, List.map_nil]
    have hnotin : e ∉ (t.getChildren.map LVNode.expr) := by
      intro hmem
      obtain ⟨c, hc, hce⟩ := List.mem_map.mp hmem
      exact hdup c hc hce
    have hconcat := List.Nodup.concat hnotin h
    simpa [List.concat_eq_append, exprsOf, LVNode.expr, freshId] using hconcat

theorem addAllExprs_nodup :
    ∀ (es : List String) (t : LVNode) (ctr : Nat), (exprsOf t).Nodup →
      (exprsOf (addAllExprs es t ctr).1).Nodup := by
  intro es
  induction es with
  | nil => intro t ctr h; simpa [addAllExprs] using h
  | cons e es ih =>
    intro t ctr h
    simp only [addAllExprs]
    exact ih _ _ (exprsOf_addNewExpr_nodup t e ctr h)

/-- C10: `addNewExpr` fails (returning `false`, tree unchanged) on any node
with a parent and on a duplicate `expr` among the root's children;
otherwise it appends exactly one child whose `name` and `expr` equal the
given string and returns `true`, so any sequence of `addNewExpr` calls on
the root keeps the children's `expr` values pairwise distinct. -/
theorem addNewExprUnique :
    ∀ (l : Located) (e : String) (ctr : Nat),
      (l.hasParent = true → l.addNewExpr e ctr = (l.node, ctr, false))
      ∧ ((∃ c ∈ l.node.getChildren, c.expr = e) →
          l.addNewExpr e ctr = (l.node, ctr, false))
      ∧ (l.hasParent = false → (∀ c ∈ l.node.getChildren, c.expr ≠ e) →
          (l.addNewExpr e ctr).2.2 = true
          ∧ ∃ ch, (l.addNewExpr e ctr).1.getChildren
              = l.node.getChildren ++ [ch] ∧ ch.name = e ∧ ch.expr = e)
      ∧ (∀ (es : List String) (t : LVNode) (c₀ : Nat), (exprsOf t).Nodup →
          (exprsOf (addAllExprs es t c₀).1).Nodup) := by
  intro l e ctr
  refine ⟨addNewExpr_parent l e ctr, addNewExpr_dup l e ctr, ?_, ?_⟩
  · intro hp h
    have hf := addNewExpr_fresh l e ctr hp h
    exact ⟨hf.1, LVNode.mk (freshId ctr) e e "" "" 0 false "" none none,
      hf.2, rfl, rfl⟩
  · intro es t c₀ h
    exact addAllExprs_nodup es t c₀ h

/-- Witness for C10: adding `"x"` twice to an empty root. -/
theorem addNewExprUnique_witness :
    ((rootLoc (freshRoot 0)).addNewExpr "x" 1).2.2 = true
    ∧ (exprsOf (addAllExprs ["x", "x", "y"] (freshRoot 0) 1).1).Nodup := by
  constructor
  · exact (((addNewExprUnique (rootLoc (freshRoot 0)) "x" 1).2.2.1 rfl)
      (by simp [rootLoc, freshRoot, LVNode.getChildren, LVNode.children])).1
  · exact (addNewExprUnique (rootLoc (freshRoot 0)) "x" 1).2.2.2
      ["x", "x", "y"] (freshRoot 0) 1
      (by simp [exprsOf, freshRoot, LVNode.getChildren, LVNode.children])

theorem moveUpInner_found (prev a : LVNode) (post : List LVNode) (nm : String)
    (ha : a.name = nm) : moveUpInner prev (a :: post) nm = some (a :: prev :: post) := by
  simp only [moveUpInner, if_pos ha]

theorem moveUpInner_interior :
    ∀ (pre : List LVNode) (prev b a : LVNode) (post : List LVNode) (nm : String),
      a.name = nm → b.name ≠ nm → (∀ x ∈ pre, x.name ≠ nm) →
      moveUpInner prev (pre ++ b :: a :: post) nm
        = some (prev :: (pre ++ a :: b :: post)) := by
  intro pre
  induction pre with
  | nil =>
    intro prev b a post nm ha hb _
    show moveUpInner prev (b :: a :: post) nm = some (prev :: (a :: b :: post))
    rw [show moveUpInner prev (b :: a :: post) nm
        = (moveUpInner b (a :: post) nm).map (prev :: ·) by
      simp only [moveUpInner, if_neg hb]]
    rw [moveUpInner_found b a post nm ha]
    rfl
  | cons p pre ih =>
    intro prev b a post nm ha hb hall
    have hp : p.name ≠ nm := hall p (by simp)
    have hrest : ∀ x ∈ pre, x.name ≠ nm := fun x hx => hall x (by simp [hx])
    show moveUpInner prev (p :: (pre ++ b :: a :: post)) nm = _
    rw [show moveUpInner prev (p :: (pre ++ b :: a :: post)) nm
        = (moveUpInner p (pre ++ b :: a :: post) nm).map (prev :: ·) by
      simp only [moveUpInner, if_neg hp]]
    rw [ih p b a post nm ha hb hrest]
    rfl

theorem moveUpList_head (a : LVNode) (post : List LVNode) (nm : String)
    (ha : a.name = nm) : moveUpList (a :: post) nm = (post ++ [a], true) := by
  simp only [moveUpList, if_pos ha]

theorem moveUpList_interior (pre₀ : List LVNode) (b a : LVNode)
    (post : List LVNode) (nm : String) (ha : a.name = nm) (hb : b.name ≠ nm)
    (hpre₀ : ∀ x ∈ pre₀, x.name ≠ nm) :
    moveUpList ((pre₀ ++ [b]) ++ a :: post) nm = (pre₀ ++ a :: b :: post, true) := by
  cases pre₀ with
  | nil =>
    show moveUpList (b :: a :: post) nm = (a :: b :: post, true)
    rw [show moveUpList (b :: a :: post) nm
        = (match moveUpInner b (a :: post) nm with
           | some l => (l, true)
           | none => (b :: a :: post, false)) by
      simp only [moveUpList, if_neg hb]]
    rw [moveUpInner_found b a post nm ha]
  | cons p pre₁ =>
    have hp : p.name ≠ nm := hpre₀ p (by simp)
    have hrest : ∀ x ∈ pre₁, x.name ≠ nm := fun x hx => hpre₀ x (by simp [hx])
    have hshape : ((p :: pre₁ ++ [b]) ++ a :: post)
        = p :: (pre₁ ++ b :: a :: post) := by simp
    rw [hshape]
    rw [show moveUpList (p :: (pre₁ ++ b :: a :: post)) nm
        = (match moveUpInner p (pre₁ ++ b :: a :: post) nm with
           | some l => (l, true)
           | none => (p :: (pre₁ ++ b :: a :: post), false)) by
      simp only [moveUpList, if_neg hp]]
    rw [moveUpInner_interior pre₁ p b a post nm ha hb hrest]
    simp

theorem moveUpList_spec (pre : List LVNode) (a : LVNode) (post : List LVNode)
    (nm : String) (ha : a.name = nm) (hall : ∀ x ∈ pre, x.name ≠ nm) :
    (moveUpList (pre ++ a :: post) nm).2 = true
    ∧ (moveUpList (pre ++ a :: post) nm).1.Perm (pre ++ a :: post)
    ∧ (pre = [] → (moveUpList (pre ++ a :: post) nm).1 = post ++ [a])
    ∧ (∀ pre₀ b, pre = pre₀ ++ [b] →
        (moveUpList (pre ++ a :: post) nm).1 = pre₀ ++ a :: b :: post) := by
  rcases List.eq_nil_or_concat' pre with hnil | ⟨pre₀, b, hcat⟩
  · subst hnil
    have h1 : moveUpList ([] ++ a :: post) nm = (post ++ [a], true) :=
      moveUpList_head a post nm ha
    refine ⟨by rw [h1], ?_, fun _ => by rw [h1], fun pre₀ b hb => ?_⟩
    · rw [h1]
      simp
    · exact absurd hb.symm (by simp)
  · subst hcat
    have hb : b.name ≠ nm := hall b (by simp)
    have hpre₀ : ∀ x ∈ pre₀, x.name ≠ nm := fun x hx => hall x (by simp [hx])
    have h1 := moveUpList_interior pre₀ b a post nm ha hb hpre₀
    refine ⟨by rw [h1], ?_, fun hemp => absurd hemp (by simp),
      fun pre₁ b₁ heq => ?_⟩
    · rw [h1]
      simp only [List.append_assoc]
      exact List.Perm.append_left pre₀ (List.Perm.swap b a post)
    · obtain ⟨h3, h4⟩ := List.append_inj' heq (by simp)
      obtain rfl : b = b₁ := by simpa using h4
      subst h3
      rw [h1]

theorem moveDownAux_last :
    ∀ (pre : List LVNode) (a : LVNode) (nm : String),
      a.name = nm → (∀ x ∈ pre, x.name ≠ nm) →
      moveDownAux (pre ++ [a]) nm = .rotateBack := by
  intro pre
  induction pre with
  | nil => intro a nm ha _; simp [moveDownAux, ha]
  | cons p pre ih =>
    intro a nm ha hall
    have hp : p.name ≠ nm := hall p (by simp)
    have hrest : ∀ x ∈ pre, x.name ≠ nm := fun x hx => hall x (by simp [hx])
    have h1 := ih a nm ha hrest
    cases pre with
    | nil => simp_all [moveDownAux]
    | cons q pre₁ => simp_all [moveDownAux]

theorem moveDownAux_interior :
    ∀ (pre : List LVNode) (a b : LVNode) (post : List LVNode) (nm : String),
      a.name = nm → (∀ x ∈ pre, x.name ≠ nm) →
      moveDownAux (pre ++ a :: b :: post) nm = .swapped (pre ++ b :: a :: post) := by
  intro pre
  induction pre with
  | nil => intro a b post nm ha _; simp [moveDownAux, ha]
  | cons p pre ih =>
    intro a b post nm ha hall
    have hp : p.name ≠ nm := hall p (by simp)
    have hrest : ∀ x ∈ pre, x.name ≠ nm := fun x hx => hall x (by simp [hx])
    have h1 := ih a b post nm ha hrest
    cases pre with
    | nil => simp_all [moveDownAux]
    | cons q pre₁ => simp_all [moveDownAux]

theorem moveDownList_spec (pre : List LVNode) (a : LVNode) (post : List LVNode)
    (nm : String) (ha : a.name = nm) (hall : ∀ x ∈ pre, x.name ≠ nm) :
    (moveDownList (pre ++ a :: post) nm).2 = true
    ∧ (moveDownList (pre ++ a :: post) nm).1.Perm (pre ++ a :: post)
    ∧ (post = [] → (moveDownList (pre ++ a :: post) nm).1 = a :: pre)
    ∧ (∀ b post₀, post = b :: post₀ →
        (moveDownList (pre ++ a :: post) nm).1 = pre ++ b :: a :: post₀) := by
  cases post with
  | nil =>
    have h1 : moveDownList (pre ++ [a]) nm = (a :: pre, true) := by
      unfold moveDownList
      rw [moveDownAux_last pre a nm ha hall]
      simp [List.getLast?_concat, List.dropLast_concat]
    refine ⟨by rw [h1], ?_, fun _ => by rw [h1], fun b post₀ hb => absurd hb (by simp)⟩
    rw [h1]
    exact (List.perm_append_singleton a pre).symm
  | cons b post₀ =>
    have h1 : moveDownList (pre ++ a :: b :: post₀) nm
        = (pre ++ b :: a :: post₀, true) := by
      unfold moveDownList
      rw [moveDownAux_interior pre a b post₀ nm ha hall]
    refine ⟨by rw [h1], ?_, fun hemp => absurd hemp (by simp),
      fun b₁ post₁ heq => ?_⟩
    · rw [h1]
      exact List.Perm.append_left pre (List.Perm.swap a b post₀)
    · obtain ⟨rfl, rfl⟩ : b = b₁ ∧ post₀ = post₁ := by
        constructor
        · exact (List.cons.injEq b post₀ b₁ post₁ ▸ heq).1
        · exact (List.cons.injEq b post₀ b₁ post₁ ▸ heq).2
      rw [h1]

/-- C9: moving a root child up or down returns `true` and permutes the
children: an interior child swaps with its neighbour, the first child
moved up wraps to the back, and the last child moved down wraps to the
front. `pre`/`post` decompose the children at the first name match. -/
theorem cyclicReorder :
    ∀ (self : LVNode) (l : Located), l.isRootChild = true →
      ∀ (pre : List LVNode) (a : LVNode) (post : List LVNode),
        self.getChildren = pre ++ a :: post →
        a.name = l.node.name → (∀ x ∈ pre, x.name ≠ l.node.name) →
        ((self.moveUpChild l).2 = true ∧ (self.moveDownChild l).2 = true
          ∧ (self.moveUpChild l).1.getChildren.Perm self.getChildren
          ∧ (self.moveDownChild l).1.getChildren.Perm self.getChildren)
        ∧ (pre = [] → (self.moveUpChild l).1.getChildren = post ++ [a])
        ∧ (∀ pre₀ b, pre = pre₀ ++ [b] →
            (self.moveUpChild l).1.getChildren = pre₀ ++ a :: b :: post)
        ∧ (post = [] → (self.moveDownChild l).1.getChildren = a :: pre)
        ∧ (∀ b post₀, post = b :: post₀ →
            (self.moveDownChild l).1.getChildren = pre ++ b :: a :: post₀) := by
  intro self l hroot pre a post hdec ha hall
  have hup := moveUpList_spec pre a post l.node.name ha hall
  have hdn := moveDownList_spec pre a post l.node.name ha hall
  have hu : self.moveUpChild l
      = (self.withChildren (some (moveUpList (pre ++ a :: post) l.node.name).1),
          true) := by
    unfold LVNode.moveUpChild
    rw [hroot, hdec]
    simp only [Bool.not_true, Bool.false_eq_true, if_false, hup.1, if_true]
  have hd : self.moveDownChild l
      = (self.withChildren (some (moveDownList (pre ++ a :: post) l.node.name).1),
          true) := by
    unfold LVNode.moveDownChild
    rw [hroot, hdec]
    simp only [Bool.not_true, Bool.false_eq_true, if_false, hdn.1, if_true]
  rw [hu, hd, hdec]
  simp only [LVNode.getChildren_withChildren]
  refine ⟨⟨trivial, trivial, hup.2.1, hdn.2.1⟩,
    hup.2.2.1, hup.2.2.2, hdn.2.2.1, hdn.2.2.2⟩

/-- Witness for C9: a three-child root, moving the middle child up
(interior swap) and the first child up (wrap-around). -/
theorem cyclicReorder_witness :
    (((LVNode.mk "r" "" "" "" "" 0 false "" none
        (some [LVNode.mk "1" "a" "a" "" "" 0 false "" none none,
               LVNode.mk "2" "b" "b" "" "" 0 false "" none none,
               LVNode.mk "3" "c" "c" "" "" 0 false "" none none])).moveUpChild
      (Located.mk (LVNode.mk "2" "b" "b" "" "" 0 false "" none none) true false)).1.getChildren
      = [LVNode.mk "2" "b" "b" "" "" 0 false "" none none,
         LVNode.mk "1" "a" "a" "" "" 0 false "" none none,
         LVNode.mk "3" "c" "c" "" "" 0 false "" none none])
    ∧ (((LVNode.mk "r" "" "" "" "" 0 false "" none
        (some [LVNode.mk "1" "a" "a" "" "" 0 false "" none none,
               LVNode.mk "2" "b" "b" "" "" 0 false "" none none])).moveUpChild
      (Located.mk (LVNode.mk "1" "a" "a" "" "" 0 false "" none none) true false)).1.getChildren
      = [LVNode.mk "2" "b" "b" "" "" 0 false "" none none,
         LVNode.mk "1" "a" "a" "" "" 0 false "" none none]) := by
  constructor
  · have h := cyclicReorder
      (LVNode.mk "r" "" "" "" "" 0 false "" none
        (some [LVNode.mk "1" "a" "a" "" "" 0 false "" none none,
               LVNode.mk "2" "b" "b" "" "" 0 false "" none none,
               LVNode.mk "3" "c" "c" "" "" 0 false "" none none]))
      (Located.mk (LVNode.mk "2" "b" "b" "" "" 0 false "" none none) true false)
      rfl
      [LVNode.mk "1" "a" "a" "" "" 0 false "" none none]
      (LVNode.mk "2" "b" "b" "" "" 0 false "" none none)
      [LVNode.mk "3" "c" "c" "" "" 0 false "" none none]
      rfl rfl ?_
    · have h2 := h.2.2.1 [] (LVNode.mk "1" "a" "a" "" "" 0 false "" none none) rfl
      simpa using h2
    · intro x hx
      simp only [List.mem_singleton] at hx
      subst hx
      decide
  · have h := cyclicReorder
      (LVNode.mk "r" "" "" "" "" 0 false "" none
        (some [LVNode.mk "1" "a" "a" "" "" 0 false "" none none,
               LVNode.mk "2" "b" "b" "" "" 0 false "" none none]))
      (Located.mk (LVNode.mk "1" "a" "a" "" "" 0 false "" none none) true false)
      rfl
      []
      (LVNode.mk "1" "a" "a" "" "" 0 false "" none none)
      [LVNode.mk "2" "b" "b" "" "" 0 false "" none none]
      rfl rfl (by intro x hx; simp at hx)
    have h2 := h.2.1 rfl
    simpa using h2

/-- Structural induction on `LVNode` through its (optional) child list. -/
def LVNode.indOn {P : LVNode → Prop}
    (h : ∀ i nm e v t r ex p s (c : Option (List LVNode)),
      (∀ x ∈ c.getD [], P x) → P (LVNode.mk i nm e v t r ex p s c)) :
    ∀ n, P n
  | .mk i nm e v t r ex p s c =>
    h i nm e v t r ex p s c (fun x hx => LVNode.indOn h x)
termination_by n => sizeOf n
decreasing_by
  have h1 := sizeOf_lt_of_mem_getD hx
  simp
  omega

theorem observe_mk (i nm e v t : String) (r : Nat) (ex : Bool) (p : String)
    (s : Option Nat) (c : Option (List LVNode)) :
    observe (LVNode.mk i nm e v t r ex p s c)
      = ObsTree.mk nm e ex v t r ((c.getD []).map observe) := by
  rw [observe]
  congr 1
  exact attachMap _ _

theorem persistedObs_mk (isRoot : Bool) (i nm e v t : String) (r : Nat)
    (ex : Bool) (p : String) (s : Option Nat) (c : Option (List LVNode)) :
    persistedObs isRoot (LVNode.mk i nm e v t r ex p s c)
      = ObsTree.mk nm e (ex && !isRoot) "" "" 0
          ((c.getD []).map (persistedObs false)) := by
  rw [persistedObs]
  congr 1
  exact attachMap _ _

theorem obsOfState_mk (nm e : String) (ex : Bool) (kids : List NodeState) :
    obsOfState (NodeState.mk nm e ex kids)
      = ObsTree.mk nm e ex "" "" 0 (kids.map obsOfState) := by
  rw [obsOfState]
  congr 1
  exact attachMap _ _

theorem pvtSerialize_mk (isRoot : Bool) (i nm e v t : String) (r : Nat)
    (ex : Bool) (p : String) (s : Option Nat) (c : Option (List LVNode)) :
    pvtSerialize isRoot (LVNode.mk i nm e v t r ex p s c)
      = NodeState.mk nm e (ex || isRoot) ((c.getD []).map (pvtSerialize false)) := by
  rw [pvtSerialize]
  congr 1
  exact attachMap _ _

theorem deSerializeKids_observe :
    ∀ (sts : List NodeState) (ctr : Nat),
      ((deSerializeKids sts ctr).1).map observe = sts.map obsOfState := by
  intro sts ctr
  induction sts, ctr using deSerializeKids.induct with
  | case1 ctr => simp [deSerializeKids]
  | case2 nm e ex kids rest ctr rdef ihk ihr =>
    cases kids with
    | nil =>
      rw [deSerializeKids.eq_2]
      simp only [List.map_cons]
      rw [observe_mk, obsOfState_mk]
      simp only [List.cons.injEq, ObsTree.mk.injEq, true_and, Option.getD_none,
        List.map_nil]
      exact ihr
    | cons k ks =>
      rw [deSerializeKids.eq_3 _ _ _ _ _ _ (by simp)]
      simp only [List.map_cons]
      rw [observe_mk, obsOfState_mk]
      simp only [List.cons.injEq, ObsTree.mk.injEq, true_and, Option.getD_some]
      exact ⟨ihk, ihr⟩

theorem obsOfState_pvtSerialize :
    ∀ (t : LVNode), obsOfState (pvtSerialize false t) = persistedObs false t := by
  intro t
  induction t using LVNode.indOn with
  | h i nm e v ty r ex p s c ih =>
    rw [pvtSerialize_mk, obsOfState_mk, persistedObs_mk]
    simp only [Bool.or_false, Bool.not_false, Bool.and_true, List.map_map]
    congr 1
    exact List.map_congr_left fun x hx => ih x hx

theorem deSerialize_nil (self : LVNode) (nm e : String) (ex : Bool) (ctr : Nat) :
    self.deSerialize (NodeState.mk nm e ex []) ctr = (self, ctr) := rfl

theorem deSerialize_cons (self : LVNode) (nm e : String) (ex : Bool)
    (st : NodeState) (sts : List NodeState) (ctr : Nat) :
    self.deSerialize (NodeState.mk nm e ex (st :: sts)) ctr
      = (self.withChildren
          (some (self.getChildren ++ (deSerializeKids (st :: sts) ctr).1)),
        (deSerializeKids (st :: sts) ctr).2) := rfl

/-- C4: serializing a watch tree (with the program's empty-named root) and
deserializing into a fresh root reconstructs the same shape with the same
`name`, `expr` and (for non-root nodes) `expanded` everywhere, while
values, types and `variablesReference` are reset; the serialized root is
always recorded as expanded. -/
theorem serializeRoundTrip :
    ∀ (t : LVNode) (ctr ctr₂ : Nat), t.name = "" → t.expr = "" →
      observe ((freshRoot ctr₂).deSerialize t.serialize ctr).1 = persistedObs true t
      ∧ (t.serialize).expanded = true := by
  intro t ctr ctr₂ hnm he
  cases t with
  | mk i nm e v ty r ex p s c =>
    rw [LVNode.name] at hnm
    rw [LVNode.expr] at he
    subst hnm he
    unfold LVNode.serialize
    rw [pvtSerialize_mk]
    constructor
    · cases hc : (c.getD []).map (pvtSerialize false) with
      | nil =>
        have hcl : c.getD [] = [] := by
          cases hl : c.getD [] with
          | nil => rfl
          | cons x xs => rw [hl] at hc; simp at hc
        rw [deSerialize_nil]
        show observe (freshRoot ctr₂) = _
        unfold freshRoot
        rw [observe_mk, persistedObs_mk, hcl]
        simp
      | cons st sts =>
        rw [deSerialize_cons]
        have hfr : (freshRoot ctr₂).getChildren = [] := rfl
        rw [hfr, List.nil_append]
        show observe (LVNode.mk (freshId ctr₂) "" "" "" "" 0 false "" none
          (some (deSerializeKids (st :: sts) ctr).1)) = _
        rw [observe_mk, persistedObs_mk]
        simp only [Option.getD_some, Bool.and_false, Bool.not_true]
        rw [deSerializeKids_observe, ← hc, List.map_map]
        congr 1
        exact List.map_congr_left fun x _ => obsOfState_pvtSerialize x
    · rw [NodeState.expanded]
      simp

/-- Witness for C4 at a two-level concrete tree. -/
theorem serializeRoundTrip_witness :
    observe ((freshRoot 9).deSerialize
        (LVNode.mk "r" "" "" "zz" "T" 5 true "pv" none
          (some [LVNode.mk "c1" "n1" "e1" "v1" "t1" 2 true "p1" none
            none])).serialize 0).1
      = persistedObs true (LVNode.mk "r" "" "" "zz" "T" 5 true "pv" none
          (some [LVNode.mk "c1" "n1" "e1" "v1" "t1" 2 true "p1" none none]))
    ∧ ((LVNode.mk "r" "" "" "zz" "T" 5 true "pv" none
          (some [LVNode.mk "c1" "n1" "e1" "v1" "t1" 2 true "p1" none
            none])).serialize).expanded = true :=
  serializeRoundTrip
    (LVNode.mk "r" "" "" "zz" "T" 5 true "pv" none
      (some [LVNode.mk "c1" "n1" "e1" "v1" "t1" 2 true "p1" none none]))
    0 9 rfl rfl

theorem buildVar_some (session : Nat) (prior : List LVNode) (v : DAPVariable)
    (ctr : Nat) (st : SaveVarState)
    (hl : oldStateLookup prior v.name = some st) :
    buildVar session prior v ctr
      = LVNode.mk st.id v.name (orStr v.evaluateName v.name) (orStr v.value "")
          (orStr v.vtype "") (v.variablesReference.getD 0)
          (st.expanded && decide (0 < v.variablesReference.getD 0)) st.value
          (some session) st.children := by
  unfold buildVar
  simp only [LVNode.name, LVNode.variablesReference, hl]
  rfl

theorem buildVar_none (session : Nat) (prior : List LVNode) (v : DAPVariable)
    (ctr : Nat) (hl : oldStateLookup prior v.name = none) :
    buildVar session prior v ctr
      = LVNode.mk (freshId ctr) v.name (orStr v.evaluateName v.name)
          (orStr v.value "") (orStr v.vtype "") (v.variablesReference.getD 0)
          false "" (some session) none := by
  unfold buildVar
  simp only [LVNode.name, LVNode.variablesReference, hl]
  rfl

theorem rebuildChildren_length :
    ∀ (session : Nat) (prior : List LVNode) (vs : List DAPVariable) (ctr : Nat),
      ((rebuildChildren session prior vs ctr).1).length = vs.length := by
  intro session prior vs
  induction vs with
  | nil => intro ctr; rfl
  | cons v vs ih =>
    intro ctr
    simp only [rebuildChildren, List.length_cons, ih]

/-- C2: when `refreshChildren` rebuilds the children from a `liveVariables`
result, a new child whose name matches some prior child (the last such, as
the JS state map overwrites) inherits that child's id, its saved value as
the new `prevValue`, its cached children list, and its expansion flag
(kept only when the new `variablesReference` is positive); a child with no
name match gets a fresh id, empty `prevValue` and `expanded = false`. -/
theorem refreshPreservesSavedState :
    ∀ (session : Nat) (prior : List LVNode) (vs : List DAPVariable) (ctr : Nat),
      ((rebuildChildren session prior vs ctr).1.length = vs.length)
      ∧ (∀ (i : Nat) (hv : i < vs.length)
          (hc : i < (rebuildChildren session prior vs ctr).1.length),
        (((rebuildChildren session prior vs ctr).1.get ⟨i, hc⟩).name
            = (vs.get ⟨i, hv⟩).name)
        ∧ (∀ st, oldStateLookup prior (vs.get ⟨i, hv⟩).name = some st →
            ((rebuildChildren session prior vs ctr).1.get ⟨i, hc⟩).id = st.id
            ∧ ((rebuildChildren session prior vs ctr).1.get ⟨i, hc⟩).prevValue
                = st.value
            ∧ ((rebuildChildren session prior vs ctr).1.get ⟨i, hc⟩).children
                = st.children
            ∧ ((rebuildChildren session prior vs ctr).1.get ⟨i, hc⟩).expanded
                = (st.expanded
                    && decide (0 < (vs.get ⟨i, hv⟩).variablesReference.getD 0)))
        ∧ (oldStateLookup prior (vs.get ⟨i, hv⟩).name = none →
            ((rebuildChildren session prior vs ctr).1.get ⟨i, hc⟩).id
                = freshId (ctr + i)
            ∧ ((rebuildChildren session prior vs ctr).1.get ⟨i, hc⟩).prevValue = ""
            ∧ ((rebuildChildren session prior vs ctr).1.get ⟨i, hc⟩).expanded = false
            ∧ ((rebuildChildren session prior vs ctr).1.get ⟨i, hc⟩).children
                = none)) := by
  intro session prior vs
  induction vs with
  | nil =>
    intro ctr
    exact ⟨rfl, fun i hv => absurd hv (by simp)⟩
  | cons v vs ih =>
    intro ctr
    refine ⟨by simpa using rebuildChildren_length session prior (v :: vs) ctr, ?_⟩
    intro i hv hc
    cases i with
    | zero =>
      have hhead : ∀ hc₀ : 0 < (rebuildChildren session prior (v :: vs) ctr).1.length,
          (rebuildChildren session prior (v :: vs) ctr).1.get ⟨0, hc₀⟩
            = buildVar session prior v ctr := fun _ => rfl
      rw [hhead hc]
      have hv0 : (v :: vs).get ⟨0, hv⟩ = v := rfl
      rw [hv0]
      refine ⟨?_, ?_, ?_⟩
      · cases hl : oldStateLookup prior v.name with
        | some st => rw [buildVar_some session prior v ctr st hl]; rfl
        | none => rw [buildVar_none session prior v ctr hl]; rfl
      · intro st hl
        rw [buildVar_some session prior v ctr st hl]
        exact ⟨rfl, rfl, rfl, rfl⟩
      · intro hl
        rw [buildVar_none session prior v ctr hl]
        exact ⟨by simp [LVNode.id, freshId], rfl, rfl, rfl⟩
    | succ j =>
      have hv' : j < vs.length := by simpa using hv
      have hc' : j < (rebuildChildren session prior vs (ctr + 1)).1.length := by
        rw [rebuildChildren_length]
        exact hv'
      have htail : (rebuildChildren session prior (v :: vs) ctr).1.get ⟨j + 1, hc⟩
          = (rebuildChildren session prior vs (ctr + 1)).1.get ⟨j, hc'⟩ := rfl
      have hget : (v :: vs).get ⟨j + 1, hv⟩ = vs.get ⟨j, hv'⟩ := rfl
      rw [htail, hget]
      have h := (ih (ctr + 1)).2 j hv' hc'
      refine ⟨h.1, h.2.1, ?_⟩
      intro hl
      have h3 := h.2.2 hl
      refine ⟨?_, h3.2.1, h3.2.2.1, h3.2.2.2⟩
      rw [h3.1]
      congr 1
      omega

/-- Witness for C2: one matching and one unmatched variable against a
saved child named `n1`. -/
theorem refreshPreservesSavedState_witness :
    ((rebuildChildren 7
        [LVNode.mk "old1" "n1" "e1" "v1" "t1" 2 true "p1" (some 7)
          (some [LVNode.mk "k" "k" "k" "" "" 0 false "" none none])]
        [DAPVariable.mk "n1" (some "") none (some "T") (some 3),
         DAPVariable.mk "n3" none (some "V3") none none] 50).1.get
        ⟨0, by simp [rebuildChildren_length]⟩).id = "old1"
    ∧ ((rebuildChildren 7
        [LVNode.mk "old1" "n1" "e1" "v1" "t1" 2 true "p1" (some 7)
          (some [LVNode.mk "k" "k" "k" "" "" 0 false "" none none])]
        [DAPVariable.mk "n1" (some "") none (some "T") (some 3),
         DAPVariable.mk "n3" none (some "V3") none none] 50).1.get
        ⟨0, by simp [rebuildChildren_length]⟩).prevValue = "v1"
    ∧ ((rebuildChildren 7
        [LVNode.mk "old1" "n1" "e1" "v1" "t1" 2 true "p1" (some 7)
          (some [LVNode.mk "k" "k" "k" "" "" 0 false "" none none])]
        [DAPVariable.mk "n1" (some "") none (some "T") (some 3),
         DAPVariable.mk "n3" none (some "V3") none none] 50).1.get
        ⟨1, by simp [rebuildChildren_length]⟩).id = freshId 51 := by
  have h := refreshPreservesSavedState 7
    [LVNode.mk "old1" "n1" "e1" "v1" "t1" 2 true "p1" (some 7)
      (some [LVNode.mk "k" "k" "k" "" "" 0 false "" none none])]
    [DAPVariable.mk "n1" (some "") none (some "T") (some 3),
     DAPVariable.mk "n3" none (some "V3") none none] 50
  have h0 := (h.2 0 (by simp) (by simp [rebuildChildren_length])).2.1
    (SaveVarState.mk "old1" true "v1"
      (some [LVNode.mk "k" "k" "k" "" "" 0 false "" none none])) rfl
  have h1 := (h.2 1 (by simp) (by simp [rebuildChildren_length])).2.2 rfl
  exact ⟨h0.1, h0.2.1, h1.1⟩

/-- C6 (amended): `refreshChildren` issues a `liveVariables` request iff the
node's session matches, it is expanded and its reference is positive; when
no request is issued the node and counter are unchanged; under the guards,
an empty result makes the children `undefined` while a rejected request
leaves the node unchanged. -/
theorem lazyChildFetch :
    ∀ (env : Nat → ReqOutcome) (session fuel : Nat) (n : LVNode) (ctr : Nat),
      ((refreshChildren env session (fuel + 1) n ctr).2.2 = true
        ↔ (n.session = some session ∧ n.expanded = true ∧ 0 < n.variablesReference))
      ∧ ((refreshChildren env session (fuel + 1) n ctr).2.2 = false →
          refreshChildren env session (fuel + 1) n ctr = (n, ctr, false))
      ∧ (n.session = some session → n.expanded = true → 0 < n.variablesReference →
          (env n.variablesReference = ReqOutcome.rejected →
            refreshChildren env session (fuel + 1) n ctr = (n, ctr, true))
          ∧ (env n.variablesReference = ReqOutcome.resolvedWith [] →
            refreshChildren env session (fuel + 1) n ctr
              = (n.withChildren none, ctr, true))) := by
  intro env session fuel n ctr
  rw [refreshChildren.eq_2]
  by_cases hs : n.session = some session
  · rw [if_neg (show ¬(n.session ≠ some session) by simp [hs])]
    by_cases hg : (n.expanded && decide (0 < n.variablesReference)) = true
    · rw [if_pos hg]
      have hg' : n.expanded = true ∧ 0 < n.variablesReference := by
        simpa [Bool.and_eq_true] using hg
      cases henv : env n.variablesReference with
      | rejected =>
        refine ⟨?_, ?_, ?_⟩
        · simp [hs, hg'.1, hg'.2]
        · intro h; simp at h
        · intro _ _ _
          exact ⟨fun _ => rfl, fun h => ReqOutcome.noConfusion h⟩
      | resolvedWith vars =>
        cases vars with
        | nil =>
          refine ⟨?_, ?_, ?_⟩
          · simp [hs, hg'.1, hg'.2, List.isEmpty_nil]
          · intro h; simp at h
          · intro _ _ _
            exact ⟨fun h => ReqOutcome.noConfusion h, fun _ => by simp⟩
        | cons w ws =>
          refine ⟨?_, ?_, ?_⟩
          · simp [hs, hg'.1, hg'.2, List.isEmpty_cons]
          · intro h; simp at h
          · intro _ _ _
            refine ⟨fun h => ReqOutcome.noConfusion h, fun h => ?_⟩
            exfalso
            have h2 : w :: ws = ([] : List DAPVariable) := by
              injection h
            simp at h2
    · rw [if_neg hg]
      have hng : ¬(n.expanded = true ∧ 0 < n.variablesReference) := by
        simpa [Bool.and_eq_true] using hg
      refine ⟨?_, fun _ => rfl, fun _ h2 h3 => absurd ⟨h2, h3⟩ hng⟩
      constructor
      · intro h; simp at h
      · rintro ⟨-, h2, h3⟩
        exact absurd ⟨h2, h3⟩ hng
  · rw [if_pos (show n.session ≠ some session from hs)]
    refine ⟨?_, fun _ => rfl, fun h1 _ _ => absurd h1 hs⟩
    constructor
    · intro h; simp at h
    · rintro ⟨h1, -, -⟩
      exact absurd h1 hs

/-- Counterexample to C6 as stated: under all the guards, a rejected
`liveVariables` request leaves the children cached (`some [...]`), not
`undefined`. -/
theorem lazyChildFetch_counterexample :
    refreshChildren (fun _ => ReqOutcome.rejected) 0 1
        (LVNode.mk "a" "A" "A" "" "" 1 true "" (some 0)
          (some [LVNode.mk "b" "B" "B" "" "" 0 false "" none none])) 0
      = (LVNode.mk "a" "A" "A" "" "" 1 true "" (some 0)
          (some [LVNode.mk "b" "B" "B" "" "" 0 false "" none none]), 0, true)
    ∧ (LVNode.mk "a" "A" "A" "" "" 1 true "" (some 0)
        (some [LVNode.mk "b" "B" "B" "" "" 0 false "" none none])).children
      ≠ none := by
  constructor
  · rw [refreshChildren.eq_2]
    simp [LVNode.session, LVNode.expanded, LVNode.variablesReference]
  · simp [LVNode.children]

/-- Witness for the amended C6: a session-matched expanded node with a
rejected request, and a session-mismatched node. -/
theorem lazyChildFetch_witness :
    refreshChildren (fun _ => ReqOutcome.resolvedWith []) 3 1
        (LVNode.mk "w" "W" "W" "" "" 2 true "" (some 3)
          (some [LVNode.mk "b" "B" "B" "" "" 0 false "" none none])) 4
      = ((LVNode.mk "w" "W" "W" "" "" 2 true "" (some 3)
          (some [LVNode.mk "b" "B" "B" "" "" 0 false "" none none])).withChildren
            none, 4, true)
    ∧ (refreshChildren (fun _ => ReqOutcome.resolvedWith []) 3 1
        (LVNode.mk "w" "W" "W" "" "" 2 true "" (some 9) none) 4).2.2 = false := by
  constructor
  · exact ((lazyChildFetch (fun _ => ReqOutcome.resolvedWith []) 3 0
      (LVNode.mk "w" "W" "W" "" "" 2 true "" (some 3)
        (some [LVNode.mk "b" "B" "B" "" "" 0 false "" none none])) 4).2.2
      rfl rfl (by decide)).2 rfl
  · have h := (lazyChildFetch (fun _ => ReqOutcome.resolvedWith []) 3 0
      (LVNode.mk "w" "W" "W" "" "" 2 true "" (some 9) none) 4).1
    by_cases hb : (refreshChildren (fun _ => ReqOutcome.resolvedWith []) 3 1
        (LVNode.mk "w" "W" "W" "" "" 2 true "" (some 9) none) 4).2.2 = true
    · exfalso
      have h2 := h.mp hb
      have h3 : (LVNode.mk "w" "W" "W" "" "" 2 true "" (some 9) none).session
          = some 3 := h2.1
      simp [LVNode.session] at h3
    · simpa using hb

theorem toWebViewNode_changed (gpr : String → String → String)
    (cwd : Option String) (isRoot : Bool) (depth : Nat) (n : LVNode) :
    (toWebViewNode gpr cwd isRoot depth n).1.changed
      = ((n.prevValue != "") && (n.prevValue != n.value)) := by
  cases n with
  | mk i nm e v t r ex p s c =>
    cases c with
    | none => rw [toWebViewNode]; rfl
    | some l => rw [toWebViewNode]; rfl

theorem toWebViewNode_upd (gpr : String → String → String)
    (cwd : Option String) (isRoot : Bool) (depth : Nat) (n : LVNode) :
    (toWebViewNode gpr cwd isRoot depth n).2.prevValue = n.value
    ∧ (toWebViewNode gpr cwd isRoot depth n).2.value = n.value := by
  cases n with
  | mk i nm e v t r ex p s c =>
    cases c with
    | none => rw [toWebViewNode]; exact ⟨rfl, rfl⟩
    | some l => rw [toWebViewNode]; exact ⟨rfl, rfl⟩

/-- C5: the webview projection reports `changed` exactly when the node's
previous value is non-empty and differs from its current value;
`toWebViewNode` then records `prevValue = value`, so an immediately
repeated call reports `changed = false`, and a node whose previous value
is empty is never reported as changed. -/
theorem changeHighlighting :
    ∀ (gpr : String → String → String) (cwd : Option String) (isRoot : Bool)
      (depth : Nat) (n : LVNode),
      ((toWebViewNode gpr cwd isRoot depth n).1.changed = true
        ↔ (n.prevValue ≠ "" ∧ n.prevValue ≠ n.value))
      ∧ ((toWebViewNode gpr cwd isRoot depth n).2.prevValue = n.value)
      ∧ ((toWebViewNode gpr cwd isRoot depth
          ((toWebViewNode gpr cwd isRoot depth n).2)).1.changed = false)
      ∧ (n.prevValue = "" →
          (toWebViewNode gpr cwd isRoot depth n).1.changed = false) := by
  intro gpr cwd isRoot depth n
  refine ⟨?_, (toWebViewNode_upd gpr cwd isRoot depth n).1, ?_, ?_⟩
  · rw [toWebViewNode_changed]
    simp [bne]
  · rw [toWebViewNode_changed]
    rw [(toWebViewNode_upd gpr cwd isRoot depth n).1,
      (toWebViewNode_upd gpr cwd isRoot depth n).2]
    simp
  · intro hp
    rw [toWebViewNode_changed, hp]
    simp

/-- Witness for C5: a node with `prevValue = "3"`, `value = "5"`, then the
repeated call, and a node with empty `prevValue`. -/
theorem changeHighlighting_witness :
    ((toWebViewNode (fun _ f => f) none true 0
        (LVNode.mk "a" "A" "A" "5" "" 0 false "3" none none)).1.changed = true)
    ∧ ((toWebViewNode (fun _ f => f) none true 0
        ((toWebViewNode (fun _ f => f) none true 0
          (LVNode.mk "a" "A" "A" "5" "" 0 false "3" none none)).2)).1.changed
      = false)
    ∧ ((toWebViewNode (fun _ f => f) none true 0
        (LVNode.mk "b" "B" "B" "5" "" 0 false "" none none)).1.changed = false) := by
  have h := changeHighlighting (fun _ f => f) none true 0
    (LVNode.mk "a" "A" "A" "5" "" 0 false "3" none none)
  have h2 := changeHighlighting (fun _ f => f) none true 0
    (LVNode.mk "b" "B" "B" "5" "" 0 false "" none none)
  refine ⟨h.1.mpr ⟨by simp [LVNode.prevValue], by simp [LVNode.prevValue, LVNode.value]⟩,
    h.2.2.1, h2.2.2.2 rfl⟩

theorem tracked_mk (i nm e v t : String) (hc ex ch ir : Bool) (d : Nat)
    (c : Option (List WVNode)) :
    tracked (WVNode.mk i nm e v t hc ex ch ir d c)
      = TrackedTree.mk i nm e hc ex d ((c.getD []).map tracked) := by
  rw [tracked]
  congr 1
  exact attachMap _ _

theorem tracked_eq_iff (a b : WVNode) :
    (nodeFieldsDiffer a b = false
      ∧ a.getChildren.map tracked = b.getChildren.map tracked)
      ↔ tracked a = tracked b := by
  cases a with
  | mk i nm e v t hc ex ch ir d c =>
    cases b with
    | mk i' nm' e' v' t' hc' ex' ch' ir' d' c' =>
      rw [tracked_mk, tracked_mk]
      simp only [nodeFieldsDiffer, WVNode.id, WVNode.name, WVNode.expr,
        WVNode.hasChildren, WVNode.expanded, WVNode.depth, WVNode.getChildren,
        WVNode.children, TrackedTree.mk.injEq, Bool.or_eq_false_iff,
        bne_eq_false_iff_eq]
      tauto

theorem compareNodes_iff :
    ∀ (o n : List WVNode),
      compareNodes o n = false ↔ o.map tracked = n.map tracked := by
  intro o n
  induction o, n using compareNodes.induct with
  | case1 o n hlen =>
    rw [compareNodes.eq_def, if_pos hlen]
    constructor
    · intro h; simp at h
    · intro h
      exfalso
      apply hlen
      have h2 := congrArg List.length h
      simpa using h2
  | case2 n hlen =>
    have hn : n = [] := by
      cases n with
      | nil => rfl
      | cons x xs => simp at hlen
    subst hn
    simp [compareNodes.eq_def]
  | case3 hd tl hlen => simp at hlen
  | case4 a as b bs hlen ihk iht =>
    rw [compareNodes.eq_def, if_neg hlen]
    simp only [Bool.or_eq_false_iff, List.map_cons, List.cons.injEq]
    rw [iht]
    constructor
    · rintro ⟨⟨hf, hk⟩, ht⟩
      exact ⟨(tracked_eq_iff a b).mp ⟨hf, (ihk.mp hk)⟩, ht⟩
    · rintro ⟨hhead, ht⟩
      have h2 := (tracked_eq_iff a b).mpr hhead
      exact ⟨⟨h2.1, ihk.mpr h2.2⟩, ht⟩

theorem isStructureChanged_iff :
    ∀ (o n : List WVNode),
      isStructureChanged o n = false ↔ o.map tracked = n.map tracked := by
  intro o n
  unfold isStructureChanged
  by_cases hlen : o.length ≠ n.length
  · rw [if_pos hlen]
    constructor
    · intro h; simp at h
    · intro h
      exfalso
      apply hlen
      have h2 := congrArg List.length h
      simpa using h2
  · rw [if_neg hlen]
    exact compareNodes_iff o n

/-- C3: the webview's structural diff is exact for the fields it tracks:
`isStructureChanged` is `false` iff the two trees agree on shape and on
`id`, `name`, `expr`, `hasChildren`, `expanded`, `depth` at every node
(value, type, changed and isRoot never matter); hence an `update` received
while not editing triggers a full re-render exactly when a tracked field
or the shape differs, and only a value patch otherwise. -/
theorem structuralDiffExact :
    ∀ (o n : List WVNode),
      (isStructureChanged o n = false ↔ o.map tracked = n.map tracked)
      ∧ (updateEffect false o n = UpdateEffect.fullRender
          ↔ ¬(o.map tracked = n.map tracked))
      ∧ (updateEffect false o n = UpdateEffect.patchValues
          ↔ o.map tracked = n.map tracked)
      ∧ (updateEffect true o n = UpdateEffect.saveOnly) := by
  intro o n
  have hiff := isStructureChanged_iff o n
  have hsave : updateEffect true o n = UpdateEffect.saveOnly := rfl
  cases hsc : isStructureChanged o n with
  | true =>
    have hval : updateEffect false o n = UpdateEffect.fullRender := by
      simp [updateEffect, hsc]
    have hneq : ¬(o.map tracked = n.map tracked) := by
      intro heq
      have h2 := hiff.mpr heq
      rw [hsc] at h2
      cases h2
    refine ⟨iff_of_false (by simp) hneq, ?_, ?_, hsave⟩
    · rw [hval]
      exact iff_of_true rfl hneq
    · rw [hval]
      constructor
      · intro h
        exact absurd h (by decide)
      · intro heq
        exact absurd heq hneq
  | false =>
    have hval : updateEffect false o n = UpdateEffect.patchValues := by
      simp [updateEffect, hsc]
    have heq := hiff.mp hsc
    refine ⟨iff_of_true rfl heq, ?_, ?_, hsave⟩
    · rw [hval]
      constructor
      · intro h
        exact absurd h (by decide)
      · intro hneg
        exact absurd heq hneg
    · rw [hval]
      exact iff_of_true rfl heq

/-- Witness for C3: a value-only change gives a patch, an `expanded` flip
forces a full re-render. -/
theorem structuralDiffExact_witness :
    updateEffect false
        [WVNode.mk "i" "n" "e" "1" "t" false false false true 0 none]
        [WVNode.mk "i" "n" "e" "2" "t" false false true true 0 none]
      = UpdateEffect.patchValues
    ∧ updateEffect false
        [WVNode.mk "i" "n" "e" "1" "t" true false false true 0 none]
        [WVNode.mk "i" "n" "e" "1" "t" true true false true 0 none]
      = UpdateEffect.fullRender := by
  constructor
  · exact (structuralDiffExact
      [WVNode.mk "i" "n" "e" "1" "t" false false false true 0 none]
      [WVNode.mk "i" "n" "e" "2" "t" false false true true 0 none]).2.2.1.mpr
      (by simp [tracked_mk])
  · exact (structuralDiffExact
      [WVNode.mk "i" "n" "e" "1" "t" true false false true 0 none]
      [WVNode.mk "i" "n" "e" "1" "t" true true false true 0 none]).2.1.mpr
      (by simp [tracked_mk])
